import Mathlib

/-!
Shallow embedding of the itinerary assembly and reconciliation logic of the
doggy day planner (src/index.tsx): the day-plan sort comparator in sendText,
the per-record state accumulation of setPin and setLeg, the leg matching and
timeline interleaving of createTimeline and exportDayPlan, and the page-break
walk of drawItineraryOnPdf.

Modelling conventions:
* JavaScript numbers are modelled by JNum: either NaN or an exact rational
  value.  Strict equality (===) on numbers is jeq, which is false whenever
  either side is NaN (in particular NaN === NaN is false, as in JS).
* Raw lat/lng values arrive as strings; RawVal abstracts a string as either
  one that Number() parses to a value, or a malformed one, which Number()
  parses to NaN.
* String.localeCompare on zero-padded "HH:MM" strings is modelled by the
  lexicographic order on String.
* JS Array.prototype.sort is stable (ES2019), modelled by insertion sort.
-/

namespace DoggyDay

/-- A JavaScript number: NaN or a (rational-valued) number. -/
inductive JNum where
  | nan : JNum
  | num : ℚ → JNum
deriving DecidableEq

/-- JS strict equality (===) on numbers: NaN is unequal to everything,
itself included. -/
def jeq : JNum → JNum → Bool
  | JNum.num x, JNum.num y => decide (x = y)
  | _, _ => false

/-- A coordinate pair as built in setPin / setLeg:
point = \x7b lat: Number(args.lat), lng: Number(args.lng) \x7d. -/
structure Point where
  lat : JNum
  lng : JNum
deriving DecidableEq

/-- A raw coordinate as delivered by the model: a string Number() parses to a
value, or a malformed (non-numeric) string. -/
inductive RawVal where
  | numStr : ℚ → RawVal
  | malformed : RawVal
deriving DecidableEq

/-- Number(s) on a raw string: the parsed value, or NaN when malformed. -/
def parseNum : RawVal → JNum
  | RawVal.numStr q => JNum.num q
  | RawVal.malformed => JNum.nan

/-- The locationInfo record pushed by setPin (the Stop of the spec).
Optional fields model JS fields that may be undefined. -/
structure Stop where
  name : String
  description : String
  position : Point
  time : Option String
  duration : Option String
  sequence : Option Int
deriving DecidableEq

/-- The polyline record pushed by setLeg (the Leg of the spec). -/
structure Leg where
  name : Option String
  startPoint : Point
  endPoint : Point
  transport : Option String
  travelTime : Option String
deriving DecidableEq

/-- JS truthiness of an optional string field: undefined and the empty
string are falsy. -/
def truthyS : Option String → Bool
  | none => false
  | some s => !(s == "")

/-- The value (s.sequence || Infinity) used by the sort comparator in
sendText: a missing sequence is Infinity, and since 0 is falsy in JS a
sequence of 0 also yields Infinity. -/
def effSeq (s : Stop) : WithTop ℤ :=
  match s.sequence with
  | none => ⊤
  | some v => if v = 0 then ⊤ else (v : WithTop ℤ)

/-- The value (s.time || '') used by the sort comparator. -/
def timeKey (s : Stop) : String :=
  s.time.getD ""

/-- Lexicographic comparison of two character lists by code point, the
model of localeCompare on the zero-padded "HH:MM" strings the comparator
receives: true when the first is no greater. -/
def lexLeB : List Char → List Char → Bool
  | [], _ => true
  | _ :: _, [] => false
  | a :: as, b :: bs =>
    if a.toNat < b.toNat then true
    else if b.toNat < a.toNat then false
    else lexLeB as bs

/-- Lexicographic string comparison, over the underlying characters. -/
def strLe (a b : String) : Prop :=
  lexLeB a.data b.data = true

/-- The ordering induced by the sendText comparator
(a.sequence || Infinity) - (b.sequence || Infinity) ||
(a.time || '').localeCompare(b.time || ''):
a sorts no later than b iff its effective sequence is smaller, or the
effective sequences agree (including the Infinity - Infinity = NaN case,
which JS sort treats as a tie) and its time key is lexicographically no
greater. -/
def stopLe (a b : Stop) : Prop :=
  effSeq a < effSeq b ∨ (effSeq a = effSeq b ∧ strLe (timeKey a) (timeKey b))

instance : DecidableRel stopLe := fun a b =>
  inferInstanceAs
    (Decidable (effSeq a < effSeq b ∨
      (effSeq a = effSeq b ∧ lexLeB (timeKey a).data (timeKey b).data = true)))

instance : IsTotal Stop stopLe := by
  constructor
  have htot : ∀ l1 l2 : List Char, lexLeB l1 l2 = true ∨ lexLeB l2 l1 = true := by
    intro l1
    induction l1 with
    | nil => intro l2; exact Or.inl rfl
    | cons a as ih =>
      intro l2
      cases l2 with
      | nil => exact Or.inr rfl
      | cons b bs =>
        by_cases hab : a.toNat < b.toNat
        · left
          rw [lexLeB, if_pos hab]
        · by_cases hba : b.toNat < a.toNat
          · right
            rw [lexLeB, if_pos hba]
          · rcases ih bs with h | h
            · left
              rw [lexLeB, if_neg hab, if_neg hba]
              exact h
            · right
              rw [lexLeB, if_neg hba, if_neg hab]
              exact h
  intro a b
  rcases lt_trichotomy (effSeq a) (effSeq b) with h | h | h
  · exact Or.inl (Or.inl h)
  · rcases htot (timeKey a).data (timeKey b).data with ht | ht
    · exact Or.inl (Or.inr ⟨h, ht⟩)
    · exact Or.inr (Or.inr ⟨h.symm, ht⟩)
  · exact Or.inr (Or.inl h)

instance : IsTrans Stop stopLe := by
  constructor
  have htrans : ∀ l1 l2 l3 : List Char,
      lexLeB l1 l2 = true → lexLeB l2 l3 = true → lexLeB l1 l3 = true := by
    intro l1
    induction l1 with
    | nil => intro l2 l3 _ _; rfl
    | cons a as ih =>
      intro l2 l3 h12 h23
      cases l2 with
      | nil => rw [lexLeB] at h12; cases h12
      | cons b bs =>
        cases l3 with
        | nil => rw [lexLeB] at h23; cases h23
        | cons c cs =>
          rw [lexLeB] at h12 h23 ⊢
          by_cases hab : a.toNat < b.toNat
          · by_cases hbc : b.toNat < c.toNat
            · rw [if_pos (by omega : a.toNat < c.toNat)]
            · by_cases hcb : c.toNat < b.toNat
              · rw [if_neg hbc, if_pos hcb] at h23
                cases h23
              · rw [if_pos (by omega : a.toNat < c.toNat)]
          · by_cases hba : b.toNat < a.toNat
            · rw [if_neg hab, if_pos hba] at h12
              cases h12
            · rw [if_neg hab, if_neg hba] at h12
              by_cases hbc : b.toNat < c.toNat
              · rw [if_pos (by omega : a.toNat < c.toNat)]
              · by_cases hcb : c.toNat < b.toNat
                · rw [if_neg hbc, if_pos hcb] at h23
                  cases h23
                · rw [if_neg hbc, if_neg hcb] at h23
                  rw [if_neg (by omega : ¬a.toNat < c.toNat),
                    if_neg (by omega : ¬c.toNat < a.toNat)]
                  exact ih bs cs h12 h23
  intro a b c hab hbc
  rcases hab with h1 | ⟨h1, t1⟩
  · rcases hbc with h2 | ⟨h2, _⟩
    · exact Or.inl (h1.trans h2)
    · exact Or.inl (h1.trans_eq h2)
  · rcases hbc with h2 | ⟨h2, t2⟩
    · exact Or.inl (h1.trans_lt h2)
    · exact Or.inr ⟨h1.trans h2, htrans _ _ _ t1 t2⟩

/-- The sort in sendText:
dayPlanItinerary.sort((a, b) => (a.sequence || Infinity) - (b.sequence ||
Infinity) || (a.time || '').localeCompare(b.time || '')), a stable sort by
the comparator, modelled by stable insertion sort. -/
def buildDayPlan (l : List Stop) : List Stop :=
  List.insertionSort stopLe l

/-- The arguments of a location function call: lat and lng arrive as raw
strings, the other fields may be absent. -/
structure LocArgs where
  name : String
  description : String
  lat : RawVal
  lng : RawVal
  time : Option String
  duration : Option String
  sequence : Option Int
deriving DecidableEq

/-- A raw start or end coordinate pair of a line function call. -/
structure PointArgs where
  lat : RawVal
  lng : RawVal
deriving DecidableEq

/-- The arguments of a line function call.  The JS field named end is
rendered endP, since end is a Lean keyword. -/
structure LineArgs where
  name : Option String
  start : PointArgs
  endP : PointArgs
  transport : Option String
  travelTime : Option String
deriving DecidableEq

/-- The mutable session arrays of src/index.tsx that the core logic reads
and writes: points, popUps, dayPlanItinerary and lines, plus the list of
points handed to bounds.extend (the map-bounds computation) and the
user-facing error channel (errorMessage writes).  The map is taken as
initialized, so setPin and setLeg take the bounds-extending branch. -/
structure AppState where
  points : List Point
  boundsPoints : List Point
  popUps : List Stop
  dayPlanItinerary : List Stop
  lines : List Leg
  warnings : List String
deriving DecidableEq

/-- The state right after restart() in sendText: all arrays empty. -/
def emptyState : AppState :=
  ⟨[], [], [], [], [], []⟩

/-- The locationInfo object built in setPin from a location record. -/
def mkStop (args : LocArgs) : Stop :=
  { name := args.name
    description := args.description
    position := ⟨parseNum args.lat, parseNum args.lng⟩
    time := args.time
    duration := args.duration
    sequence := args.sequence }

/-- setPin: pushes the parsed point, extends the bounds with it, records the
locationInfo in popUps, and appends it to dayPlanItinerary only when
args.time is truthy.  No branch writes a warning. -/
def setPin (args : LocArgs) (st : AppState) : AppState :=
  let point : Point := ⟨parseNum args.lat, parseNum args.lng⟩
  let info := mkStop args
  { st with
    points := st.points ++ [point]
    boundsPoints := st.boundsPoints ++ [point]
    popUps := st.popUps ++ [info]
    dayPlanItinerary :=
      if truthyS args.time then st.dayPlanItinerary ++ [info]
      else st.dayPlanItinerary }

/-- setLeg: pushes both parsed endpoints, extends the bounds with them, and
records the polyline data (name, transport, travelTime, startPoint,
endPoint) in lines. -/
def setLeg (args : LineArgs) (st : AppState) : AppState :=
  let start : Point := ⟨parseNum args.start.lat, parseNum args.start.lng⟩
  let stop : Point := ⟨parseNum args.endP.lat, parseNum args.endP.lng⟩
  { st with
    points := st.points ++ [start, stop]
    boundsPoints := st.boundsPoints ++ [start, stop]
    lines := st.lines ++ [⟨args.name, start, stop, args.transport, args.travelTime⟩] }

/-- One element of the functionCalls batch processed by sendText. -/
inductive Call where
  | location : LocArgs → Call
  | line : LineArgs → Call
deriving DecidableEq

/-- The dispatch in sendText's for-loop: location calls go to setPin, line
calls to setLeg. -/
def processCall (st : AppState) (c : Call) : AppState :=
  match c with
  | Call.location args => setPin args st
  | Call.line args => setLeg args st

/-- Folding a batch of function calls over a starting state. -/
def runCalls (calls : List Call) (st : AppState) : AppState :=
  calls.foldl processCall st

/-- sendText's processing of one response batch, starting from the freshly
reset state: run every call, then sort dayPlanItinerary in place.  (The
source sorts only when dayPlanItinerary is non-empty; sorting the empty
list is the identity, so the guard is dropped.) -/
def processPrompt (calls : List Call) : AppState :=
  let st := runCalls calls emptyState
  { st with dayPlanItinerary := buildDayPlan st.dayPlanItinerary }

/-- Strict equality of two points, coordinate by coordinate, as used by the
connecting-line predicate. -/
def pointJeq (p q : Point) : Bool :=
  jeq p.lat q.lat && jeq p.lng q.lng

/-- The predicate of the lines.find callback shared by createTimeline and
exportDayPlan: the line's endpoints equal the two stop positions in either
direction, by strict coordinate equality.  (The source's guard on
line.startPoint / line.endPoint being present is always true here, because
every modelled line carries both endpoints, as every line pushed by setLeg
does.) -/
def legMatches (line : Leg) (p1 p2 : Point) : Bool :=
  (jeq line.startPoint.lat p1.lat && jeq line.startPoint.lng p1.lng &&
    jeq line.endPoint.lat p2.lat && jeq line.endPoint.lng p2.lng) ||
  (jeq line.startPoint.lat p2.lat && jeq line.startPoint.lng p2.lng &&
    jeq line.endPoint.lat p1.lat && jeq line.endPoint.lng p1.lng)

/-- lines.find(...) over the arrival-ordered lines array: the first line
matching the adjacent pair, if any. -/
def findConnectingLeg (legs : List Leg) (p1 p2 : Point) : Option Leg :=
  legs.find? (fun line => legMatches line p1 p2)

/-- One renderable unit of the assembled output: a location entry (a
timeline stop item, or a \x7b type: 'location' \x7d export record) or a
transport entry (a transport-item, or a \x7b type: 'transport' \x7d export
record). -/
inductive TimelineEntry where
  | location : Stop → TimelineEntry
  | transport : Leg → TimelineEntry
deriving DecidableEq

/-- The DOM order createTimeline produces: each stop item in dayPlanItinerary
order, and after stop i a transport item when a connecting line is found
and its transport or travelTime is truthy.  (The source guards the whole
transport pass with lines.length > 0; with no lines the find returns
nothing, so the guard is behaviourally redundant.) -/
def timelineSequence (legs : List Leg) : List Stop → List TimelineEntry
  | [] => []
  | [s] => [TimelineEntry.location s]
  | s1 :: s2 :: rest =>
    TimelineEntry.location s1 ::
      ((match findConnectingLeg legs s1.position s2.position with
        | some line =>
          if truthyS line.transport || truthyS line.travelTime then
            [TimelineEntry.transport line]
          else []
        | none => []) ++ timelineSequence legs (s2 :: rest))

/-- The fullItinerary array built in exportDayPlan: each location in
dayPlanItinerary order, and after location i a transport entry whenever a
connecting line is found — with no check on transport or travelTime being
non-empty. -/
def exportSequence (legs : List Leg) : List Stop → List TimelineEntry
  | [] => []
  | [s] => [TimelineEntry.location s]
  | s1 :: s2 :: rest =>
    TimelineEntry.location s1 ::
      ((match findConnectingLeg legs s1.position s2.position with
        | some line => [TimelineEntry.transport line]
        | none => []) ++ exportSequence legs (s2 :: rest))

/-- A drawing instruction emitted by the layout walk of drawItineraryOnPdf:
a page break (doc.addPage), the placement of an entry with the y cursor at
which its block starts, or the connector line between consecutive entries
(its top and bottom y). -/
inductive Instr where
  | pageBreak : Instr
  | place : TimelineEntry → ℚ → Instr
  | connector : ℚ → ℚ → Instr
deriving DecidableEq

/-- The estimated height of an entry's block in drawItineraryOnPdf:
blockHeight = 40 plus the measured height of the wrapped text (the
description for a location, the name for a transport).  The text
measurement doc.getTextDimensions(doc.splitTextToSize(...)).h is an
external collaborator, abstracted as the function measure. -/
def blockHeight (measure : TimelineEntry → ℚ) (e : TimelineEntry) : ℚ :=
  40 + measure e

/-- How far the y cursor advances when an entry is drawn: a location block
ends at y + 14 + descHeight + 6 + 20, a transport block at
y + 14 + 12 + 20. -/
def advanceHeight (measure : TimelineEntry → ℚ) (e : TimelineEntry) : ℚ :=
  match e with
  | TimelineEntry.location _ => 40 + measure e
  | TimelineEntry.transport _ => 46

/-- The per-entry walk of drawItineraryOnPdf: checkPageBreak adds a page
and resets y to margin when y + blockHeight > pageHeight - margin, the
entry is placed at the (possibly reset) cursor, a connector line from
itemStartY + 4 down to the next cursor - 12 is drawn for every entry but
the last, and the cursor advances.  The source fixes margin = 20; it is a
parameter here so the degenerate-page condition of the spec can be stated
for a general margin. -/
def layoutWalk (measure : TimelineEntry → ℚ) (pageHeight margin : ℚ) :
    List TimelineEntry → ℚ → List Instr
  | [], _ => []
  | e :: rest, y =>
    let needsBreak : Bool := decide (y + blockHeight measure e > pageHeight - margin)
    let y1 := if needsBreak then margin else y
    let y2 := y1 + advanceHeight measure e
    (if needsBreak then [Instr.pageBreak] else []) ++
      Instr.place e y1 ::
        ((if rest.isEmpty then [] else [Instr.connector (y1 + 4) (y2 - 12)]) ++
          layoutWalk measure pageHeight margin rest y2)

/-- drawItineraryOnPdf's walk over the full itinerary: y starts at 40, the
title line advances it by 25 to 65, and the per-entry walk runs with the
source's margin of 20. -/
def drawItinerary (measure : TimelineEntry → ℚ) (pageHeight : ℚ)
    (entries : List TimelineEntry) : List Instr :=
  layoutWalk measure pageHeight 20 entries 65

/-- Modelled from the spec (section 4.5 failure mode), for comparison with
the source-derived walk: on a degenerate page every entry is preceded by a
page break and placed at the margin (20), with the connector geometry the
reset cursor induces. -/
def forcedBreakLayout (measure : TimelineEntry → ℚ) : List TimelineEntry → List Instr
  | [] => []
  | e :: rest =>
    Instr.pageBreak :: Instr.place e 20 ::
      ((if rest.isEmpty then []
        else [Instr.connector 24 (20 + advanceHeight measure e - 12)]) ++
        forcedBreakLayout measure rest)

/-- The composite sort key of a Stop, as a plain pair, used to state
stability of buildDayPlan. -/
def sameKey (k : WithTop ℤ × String) (s : Stop) : Bool :=
  decide ((effSeq s, timeKey s) = k)

/-- Rewriting a sequence of 0 to an absent sequence, used to state that the
comparator treats the falsy value 0 like a missing sequence. -/
def zeroToNone (s : Stop) : Stop :=
  if s.sequence = some 0 then { s with sequence := none } else s

/-- Recognizes a transport entry of the assembled output. -/
def isTransport : TimelineEntry → Bool
  | TimelineEntry.transport _ => true
  | TimelineEntry.location _ => false

/-- The location entries of an assembled output sequence, in order. -/
def locationsOf : List TimelineEntry → List Stop
  | [] => []
  | TimelineEntry.location s :: l => s :: locationsOf l
  | TimelineEntry.transport _ :: l => locationsOf l

/-- The entries placed by a list of layout instructions, in order. -/
def placedEntries : List Instr → List TimelineEntry
  | [] => []
  | Instr.place e _ :: l => e :: placedEntries l
  | Instr.pageBreak :: l => placedEntries l
  | Instr.connector _ _ :: l => placedEntries l

/-- Recognizes a page-break instruction. -/
def isPageBreak : Instr → Bool
  | Instr.pageBreak => true
  | Instr.place _ _ => false
  | Instr.connector _ _ => false

/-- Concrete stops for the sort-correctness scenario: sequence values
3, 1 and absent, times "10:00", "09:00" and "08:00". -/
def c1stopA : Stop :=
  ⟨"A", "first named", ⟨JNum.num 1, JNum.num 1⟩, some "10:00", none, some 3⟩

def c1stopB : Stop :=
  ⟨"B", "second named", ⟨JNum.num 2, JNum.num 2⟩, some "09:00", none, some 1⟩

def c1stopC : Stop :=
  ⟨"C", "third named", ⟨JNum.num 3, JNum.num 3⟩, some "08:00", none, none⟩

/-- Concrete stops for the sequence-0 scenario: sequence 0 with the
earliest time, sequence 1, and no sequence. -/
def c9stop0 : Stop :=
  ⟨"Z", "zero seq", ⟨JNum.num 4, JNum.num 4⟩, some "08:00", none, some 0⟩

def c9stop1 : Stop :=
  ⟨"O", "one seq", ⟨JNum.num 5, JNum.num 5⟩, some "10:00", none, some 1⟩

def c9stopN : Stop :=
  ⟨"N", "no seq", ⟨JNum.num 6, JNum.num 6⟩, some "09:00", none, none⟩

/-- Two adjacent concrete stops at positions (1,1) and (2,2). -/
def pairStopA : Stop :=
  ⟨"P", "park", ⟨JNum.num 1, JNum.num 1⟩, some "09:00", none, some 1⟩

def pairStopB : Stop :=
  ⟨"Q", "cafe", ⟨JNum.num 2, JNum.num 2⟩, some "11:00", none, some 2⟩

/-- A leg connecting those two stops whose transport and travelTime are
both the empty string. -/
def emptyLeg : Leg :=
  ⟨some "hop", ⟨JNum.num 1, JNum.num 1⟩, ⟨JNum.num 2, JNum.num 2⟩, some "", some ""⟩

/-- A leg connecting those two stops with a truthy transport. -/
def walkLeg : Leg :=
  ⟨some "stroll", ⟨JNum.num 1, JNum.num 1⟩, ⟨JNum.num 2, JNum.num 2⟩, some "walking",
    some "20 minutes"⟩

/-- The same connection stored in the opposite direction. -/
def walkLegRev : Leg :=
  ⟨some "stroll back", ⟨JNum.num 2, JNum.num 2⟩, ⟨JNum.num 1, JNum.num 1⟩, some "walking",
    some "20 minutes"⟩

/-- A stop whose lat failed numeric parsing, and a leg stored with exactly
its position as start and pairStopB's position as end. -/
def nanStop : Stop :=
  ⟨"X", "broken", ⟨JNum.nan, JNum.num 0⟩, some "10:00", none, none⟩

def nanLeg : Leg :=
  ⟨some "ghost", ⟨JNum.nan, JNum.num 0⟩, ⟨JNum.num 2, JNum.num 2⟩, some "walking",
    some "5 minutes"⟩

/-- A location record with a non-numeric lat, alongside two well-formed
records. -/
def badLoc : LocArgs :=
  ⟨"Bad", "unparseable", RawVal.malformed, RawVal.numStr 1, some "09:00", none, none⟩

def goodLoc1 : LocArgs :=
  ⟨"Good1", "fine", RawVal.numStr 10, RawVal.numStr 20, some "10:00", none, some 1⟩

def goodLoc2 : LocArgs :=
  ⟨"Good2", "also fine", RawVal.numStr 30, RawVal.numStr 40, some "11:00", none, some 2⟩

/-- The malformed-batch scenario: one bad record among two good ones. -/
def cexBatch : List Call :=
  [Call.location badLoc, Call.location goodLoc1, Call.location goodLoc2]

/-- A location record arriving without a time. -/
def noTimeLoc : LocArgs :=
  ⟨"Untimed", "flexible", RawVal.numStr 7, RawVal.numStr 8, none, none, some 1⟩

/-- The all-zero text measurement, for concrete layout scenarios. -/
def measureZero : TimelineEntry → ℚ :=
  fun _ => 0

/-- A concrete entry for the layout scenarios. -/
def layoutEntry : TimelineEntry :=
  TimelineEntry.transport walkLeg

theorem jeq_nan_left (x : JNum) : jeq JNum.nan x = false :=
  rfl

theorem jeq_nan_right (x : JNum) : jeq x JNum.nan = false := by
  cases x <;> rfl

theorem jeq_refl (x : JNum) (h : x ≠ JNum.nan) : jeq x x = true := by
  cases x with
  | nan => exact absurd rfl h
  | num q => simp [jeq]

theorem legMatches_symm (line : Leg) (p1 p2 : Point) :
    legMatches line p1 p2 = legMatches line p2 p1 := by
  unfold legMatches
  exact Bool.or_comm _ _

theorem legMatches_of_nan (line : Leg) (p1 p2 : Point)
    (h : p1.lat = JNum.nan ∨ p1.lng = JNum.nan ∨ p2.lat = JNum.nan ∨ p2.lng = JNum.nan) :
    legMatches line p1 p2 = false := by
  rcases h with h | h | h | h <;> simp [legMatches, h, jeq_nan_right]

theorem find?_first {α : Type} {p : α → Bool} :
    ∀ {l : List α} {x : α}, l.find? p = some x →
      p x = true ∧ ∃ l1 l2, l = l1 ++ x :: l2 ∧ ∀ y ∈ l1, p y = false := by
  intro l
  induction l with
  | nil => intro x h; simp [List.find?] at h
  | cons a t ih =>
    intro x h
    rw [List.find?_cons] at h
    cases hp : p a with
    | true =>
      rw [hp] at h
      cases h
      exact ⟨hp, [], t, rfl, by intro y hy; cases hy⟩
    | false =>
      rw [hp] at h
      obtain ⟨hx, l1, l2, rfl, hl1⟩ := ih h
      refine ⟨hx, a :: l1, l2, rfl, ?_⟩
      intro y hy
      rcases List.mem_cons.mp hy with rfl | hy
      · exact hp
      · exact hl1 y hy

theorem lexLeB_refl : ∀ l : List Char, lexLeB l l = true := by
  intro l
  induction l with
  | nil => rfl
  | cons a as ih =>
    rw [lexLeB, if_neg (lt_irrefl a.toNat), if_neg (lt_irrefl a.toNat)]
    exact ih

theorem strLe_refl (s : String) : strLe s s :=
  lexLeB_refl s.data

theorem filter_sameKey_orderedInsert (k : WithTop ℤ × String) (a : Stop) :
    ∀ l : List Stop,
      (List.orderedInsert stopLe a l).filter (sameKey k) =
        if sameKey k a then a :: l.filter (sameKey k) else l.filter (sameKey k) := by
  intro l
  induction l with
  | nil =>
    simp [List.orderedInsert, List.filter_cons]
  | cons b t ih =>
    by_cases hab : stopLe a b
    · rw [List.orderedInsert, if_pos hab, List.filter_cons]
    · rw [List.orderedInsert, if_neg hab, List.filter_cons]
      by_cases hk : sameKey k a = true
      · have hbk : sameKey k b = false := by
          by_contra hb
          rw [Bool.not_eq_false] at hb
          have ha' := of_decide_eq_true hk
          have hb' := of_decide_eq_true hb
          have hseq : effSeq a = effSeq b := by
            have h1 : effSeq a = k.1 := congrArg Prod.fst ha'
            have h2 : effSeq b = k.1 := congrArg Prod.fst hb'
            rw [h1, h2]
          have htime : timeKey a = timeKey b := by
            have h1 : timeKey a = k.2 := congrArg Prod.snd ha'
            have h2 : timeKey b = k.2 := congrArg Prod.snd hb'
            rw [h1, h2]
          exact hab (Or.inr ⟨hseq, htime ▸ strLe_refl (timeKey a)⟩)
        simp [hbk, hk, ih, List.filter_cons]
      · simp only [Bool.not_eq_true] at hk
        simp [hk, ih, List.filter_cons]

theorem buildDayPlan_filter_sameKey (k : WithTop ℤ × String) :
    ∀ l : List Stop, (buildDayPlan l).filter (sameKey k) = l.filter (sameKey k) := by
  intro l
  simp only [buildDayPlan]
  induction l with
  | nil => rfl
  | cons a t ih =>
    rw [List.insertionSort, filter_sameKey_orderedInsert, List.filter_cons]
    by_cases hk : sameKey k a = true
    · simp [hk, ih]
    · simp only [Bool.not_eq_true] at hk
      simp [hk, ih]

theorem export_cons_cons_some (legs : List Leg) (s1 s2 : Stop) (rest : List Stop)
    (line : Leg) (hf : findConnectingLeg legs s1.position s2.position = some line) :
    exportSequence legs (s1 :: s2 :: rest) =
      TimelineEntry.location s1 :: TimelineEntry.transport line ::
        exportSequence legs (s2 :: rest) := by
  rw [exportSequence, hf]
  rfl

theorem export_cons_cons_none (legs : List Leg) (s1 s2 : Stop) (rest : List Stop)
    (hf : findConnectingLeg legs s1.position s2.position = none) :
    exportSequence legs (s1 :: s2 :: rest) =
      TimelineEntry.location s1 :: exportSequence legs (s2 :: rest) := by
  rw [exportSequence, hf]
  rfl

theorem timeline_cons_cons_none (legs : List Leg) (s1 s2 : Stop) (rest : List Stop)
    (hf : findConnectingLeg legs s1.position s2.position = none) :
    timelineSequence legs (s1 :: s2 :: rest) =
      TimelineEntry.location s1 :: timelineSequence legs (s2 :: rest) := by
  rw [timelineSequence, hf]
  rfl

theorem export_locations (legs : List Leg) :
    ∀ dp : List Stop, locationsOf (exportSequence legs dp) = dp := by
  intro dp
  induction dp with
  | nil => rfl
  | cons s1 t ih =>
    cases t with
    | nil => rfl
    | cons s2 rest =>
      cases hf : findConnectingLeg legs s1.position s2.position with
      | none => rw [export_cons_cons_none legs s1 s2 rest hf, locationsOf, ih]
      | some line =>
        rw [export_cons_cons_some legs s1 s2 rest line hf, locationsOf, locationsOf, ih]

theorem export_ne_nil (legs : List Leg) (s : Stop) (t : List Stop) :
    exportSequence legs (s :: t) ≠ [] := by
  cases t with
  | nil => simp [exportSequence]
  | cons s2 rest =>
    cases hf : findConnectingLeg legs s.position s2.position with
    | none => rw [export_cons_cons_none legs s s2 rest hf]; simp
    | some line => rw [export_cons_cons_some legs s s2 rest line hf]; simp

theorem export_getLast (legs : List Leg) :
    ∀ (dp : List Stop) (s : Stop), dp.getLast? = some s →
      (exportSequence legs dp).getLast? = some (TimelineEntry.location s) := by
  intro dp
  induction dp with
  | nil => intro s h; cases h
  | cons s1 t ih =>
    cases t with
    | nil =>
      intro s h
      cases h
      rfl
    | cons s2 rest =>
      intro s h
      rw [List.getLast?_cons_cons] at h
      have htail := ih s h
      have hrec : exportSequence legs (s1 :: s2 :: rest) =
          (TimelineEntry.location s1 ::
            (match findConnectingLeg legs s1.position s2.position with
              | some line => [TimelineEntry.transport line]
              | none => [])) ++ exportSequence legs (s2 :: rest) := by
        rw [exportSequence]
        simp
      rw [hrec, List.getLast?_append, htail]
      rfl

theorem export_transport_count (legs : List Leg) :
    ∀ dp : List Stop, (exportSequence legs dp).countP isTransport ≤ dp.length - 1 := by
  intro dp
  induction dp with
  | nil => simp [exportSequence]
  | cons s1 t ih =>
    cases t with
    | nil => simp [exportSequence, List.countP_cons, isTransport]
    | cons s2 rest =>
      have hrest : (exportSequence legs (s2 :: rest)).countP isTransport ≤ rest.length := by
        simpa using ih
      cases hf : findConnectingLeg legs s1.position s2.position with
      | none =>
        rw [export_cons_cons_none legs s1 s2 rest hf, List.countP_cons]
        simp only [isTransport, List.length_cons, if_false, Bool.false_eq_true]
        omega
      | some line =>
        rw [export_cons_cons_some legs s1 s2 rest line hf, List.countP_cons,
          List.countP_cons]
        simp only [isTransport, List.length_cons, if_false, if_true, Bool.false_eq_true]
        omega

theorem timeline_cons_cons_some (legs : List Leg) (s1 s2 : Stop) (rest : List Stop)
    (line : Leg) (hf : findConnectingLeg legs s1.position s2.position = some line) :
    timelineSequence legs (s1 :: s2 :: rest) =
      TimelineEntry.location s1 ::
        ((if (truthyS line.transport || truthyS line.travelTime) = true then
            [TimelineEntry.transport line]
          else []) ++ timelineSequence legs (s2 :: rest)) := by
  rw [timelineSequence, hf]

theorem timeline_transport_truthy (legs : List Leg) :
    ∀ (dp : List Stop) (line : Leg),
      TimelineEntry.transport line ∈ timelineSequence legs dp →
      (truthyS line.transport || truthyS line.travelTime) = true := by
  intro dp
  induction dp with
  | nil => intro line h; cases h
  | cons s1 t ih =>
    cases t with
    | nil =>
      intro line h
      rw [timelineSequence] at h
      simp at h
    | cons s2 rest =>
      intro line h
      cases hf : findConnectingLeg legs s1.position s2.position with
      | none =>
        rw [timeline_cons_cons_none legs s1 s2 rest hf] at h
        rcases List.mem_cons.mp h with heq | hrec
        · cases heq
        · exact ih line hrec
      | some l0 =>
        rw [timeline_cons_cons_some legs s1 s2 rest l0 hf] at h
        rcases List.mem_cons.mp h with heq | hmem
        · cases heq
        rcases List.mem_append.mp hmem with hmid | hrec
        · by_cases hc : (truthyS l0.transport || truthyS l0.travelTime) = true
          · rw [if_pos hc] at hmid
            have heq := List.mem_singleton.mp hmid
            cases heq
            exact hc
          · rw [if_neg hc] at hmid
            cases hmid
        · exact ih line hrec

theorem runCalls_nil (st : AppState) : runCalls [] st = st :=
  rfl

theorem runCalls_cons (c : Call) (calls : List Call) (st : AppState) :
    runCalls (c :: calls) st = runCalls calls (processCall st c) :=
  rfl

theorem runCalls_append (l1 l2 : List Call) (st : AppState) :
    runCalls (l1 ++ l2) st = runCalls l2 (runCalls l1 st) := by
  simp only [runCalls, List.foldl_append]

theorem warnings_processCall (st : AppState) (c : Call) :
    (processCall st c).warnings = st.warnings := by
  cases c <;> rfl

theorem warnings_runCalls : ∀ (calls : List Call) (st : AppState),
    (runCalls calls st).warnings = st.warnings := by
  intro calls
  induction calls with
  | nil => intro st; rfl
  | cons c t ih =>
    intro st
    rw [runCalls_cons, ih, warnings_processCall]

theorem popUps_setPin (args : LocArgs) (st : AppState) :
    (setPin args st).popUps = st.popUps ++ [mkStop args] :=
  rfl

theorem popUps_setLeg (args : LineArgs) (st : AppState) :
    (setLeg args st).popUps = st.popUps :=
  rfl

theorem popUps_length_runCalls_locs :
    ∀ (l : List LocArgs) (st : AppState),
      (runCalls (l.map Call.location) st).popUps.length = st.popUps.length + l.length := by
  intro l
  induction l with
  | nil => intro st; simp [runCalls_nil]
  | cons a t ih =>
    intro st
    rw [List.map_cons, runCalls_cons]
    show (runCalls (t.map Call.location) (setPin a st)).popUps.length = _
    rw [ih, popUps_setPin]
    simp
    omega

theorem mem_boundsPoints_processCall (st : AppState) (c : Call) (x : Point)
    (h : x ∈ st.boundsPoints) : x ∈ (processCall st c).boundsPoints := by
  cases c with
  | location args => simp [processCall, setPin, h]
  | line args => simp [processCall, setLeg, h]

theorem mem_boundsPoints_runCalls :
    ∀ (calls : List Call) (st : AppState) (x : Point),
      x ∈ st.boundsPoints → x ∈ (runCalls calls st).boundsPoints := by
  intro calls
  induction calls with
  | nil => intro st x h; exact h
  | cons c t ih =>
    intro st x h
    rw [runCalls_cons]
    exact ih _ x (mem_boundsPoints_processCall st c x h)

theorem dayPlan_truthy_processCall (st : AppState) (c : Call)
    (h : ∀ s ∈ st.dayPlanItinerary, truthyS s.time = true) :
    ∀ s ∈ (processCall st c).dayPlanItinerary, truthyS s.time = true := by
  cases c with
  | line args => exact h
  | location args =>
    intro s hs
    by_cases ht : truthyS args.time = true
    · have : (setPin args st).dayPlanItinerary = st.dayPlanItinerary ++ [mkStop args] := by
        simp [setPin, ht]
      rw [processCall] at hs
      rw [this] at hs
      rcases List.mem_append.mp hs with h1 | h2
      · exact h s h1
      · have heq := List.mem_singleton.mp h2
        cases heq
        exact ht
    · have : (setPin args st).dayPlanItinerary = st.dayPlanItinerary := by
        simp [setPin, ht]
      rw [processCall] at hs
      rw [this] at hs
      exact h s hs

theorem dayPlan_truthy_runCalls :
    ∀ (calls : List Call) (st : AppState),
      (∀ s ∈ st.dayPlanItinerary, truthyS s.time = true) →
      ∀ s ∈ (runCalls calls st).dayPlanItinerary, truthyS s.time = true := by
  intro calls
  induction calls with
  | nil => intro st h; exact h
  | cons c t ih =>
    intro st h
    rw [runCalls_cons]
    exact ih _ (dayPlan_truthy_processCall st c h)

theorem advanceHeight_ge (measure : TimelineEntry → ℚ) (hm : ∀ e, 0 ≤ measure e)
    (e : TimelineEntry) : 40 ≤ advanceHeight measure e := by
  cases e with
  | location s =>
    have := hm (TimelineEntry.location s)
    simp only [advanceHeight]
    linarith
  | transport l =>
    simp only [advanceHeight]
    norm_num

theorem layoutWalk_degenerate (measure : TimelineEntry → ℚ) (pageHeight : ℚ)
    (hm : ∀ e, 0 ≤ measure e) (hp : pageHeight - 2 * 20 ≤ 0) :
    ∀ (entries : List TimelineEntry) (y : ℚ), 20 ≤ y →
      layoutWalk measure pageHeight 20 entries y = forcedBreakLayout measure entries := by
  intro entries
  induction entries with
  | nil => intro y _; rfl
  | cons e rest ih =>
    intro y hy
    have hbh : 40 ≤ blockHeight measure e := by
      have := hm e
      simp only [blockHeight]
      linarith
    have hcond : y + blockHeight measure e > pageHeight - 20 := by linarith
    have hb : decide (y + blockHeight measure e > pageHeight - 20) = true :=
      decide_eq_true hcond
    have hadv : 40 ≤ advanceHeight measure e := advanceHeight_ge measure hm e
    rw [layoutWalk]
    simp only [hb, if_true, forcedBreakLayout]
    rw [ih (20 + advanceHeight measure e) (by linarith)]
    norm_num

theorem forced_places (measure : TimelineEntry → ℚ) :
    ∀ entries : List TimelineEntry,
      placedEntries (forcedBreakLayout measure entries) = entries := by
  intro entries
  induction entries with
  | nil => rfl
  | cons e rest ih =>
    cases rest with
    | nil => rfl
    | cons e2 rest2 =>
      rw [forcedBreakLayout]
      simp only [List.isEmpty_cons, if_false, Bool.false_eq_true, List.singleton_append]
      rw [placedEntries, placedEntries, placedEntries, ih]

theorem forced_breaks (measure : TimelineEntry → ℚ) :
    ∀ entries : List TimelineEntry,
      (forcedBreakLayout measure entries).countP isPageBreak = entries.length := by
  intro entries
  induction entries with
  | nil => rfl
  | cons e rest ih =>
    cases rest with
    | nil => rfl
    | cons e2 rest2 =>
      rw [forcedBreakLayout]
      simp only [List.isEmpty_cons, if_false, Bool.false_eq_true, List.singleton_append]
      rw [List.countP_cons, List.countP_cons, List.countP_cons]
      simp only [isPageBreak, if_true, if_false, Bool.false_eq_true]
      rw [ih]
      simp

theorem effSeq_some_zero (s : Stop) (h : s.sequence = some 0) : effSeq s = ⊤ := by
  unfold effSeq
  rw [h]
  rfl

theorem effSeq_some_pos (b : Stop) (n : ℤ) (hn : 0 < n) (h : b.sequence = some n) :
    effSeq b = (n : WithTop ℤ) := by
  unfold effSeq
  rw [h]
  simp [hn.ne']

theorem effSeq_zeroToNone (s : Stop) : effSeq (zeroToNone s) = effSeq s := by
  unfold zeroToNone
  by_cases h : s.sequence = some 0
  · rw [if_pos h, effSeq_some_zero s h]
    rfl
  · rw [if_neg h]

theorem timeKey_zeroToNone (s : Stop) : timeKey (zeroToNone s) = timeKey s := by
  unfold zeroToNone
  by_cases h : s.sequence = some 0
  · rw [if_pos h]
    rfl
  · rw [if_neg h]

theorem stopLe_zeroToNone (a b : Stop) : stopLe a b ↔ stopLe (zeroToNone a) (zeroToNone b) := by
  unfold stopLe
  rw [effSeq_zeroToNone, effSeq_zeroToNone, timeKey_zeroToNone, timeKey_zeroToNone]

/-- C1: buildDayPlan stable-sorts the day plan ascending by the composite
key (sequence, or Infinity when absent; then time, or the empty string
when absent, compared lexicographically): the output is sorted by that
comparator ordering, is a permutation of the input, and preserves the
arrival order of equal-key stops (the stability characterization); on
stops with sequence values 3, 1 and absent and times "10:00", "09:00",
"08:00" the output is the sequence-1 stop, then the sequence-3 stop, then
the no-sequence stop last despite its earlier time. -/
theorem C1_sort_correctness :
    (∀ l : List Stop, List.Sorted stopLe (buildDayPlan l)) ∧
    (∀ l : List Stop, List.Perm (buildDayPlan l) l) ∧
    (∀ (k : WithTop ℤ × String) (l : List Stop),
      (buildDayPlan l).filter (sameKey k) = l.filter (sameKey k)) ∧
    buildDayPlan [c1stopA, c1stopB, c1stopC] = [c1stopB, c1stopA, c1stopC] := by
  refine ⟨fun l => List.sorted_insertionSort stopLe l,
    fun l => List.perm_insertionSort stopLe l,
    buildDayPlan_filter_sameKey, ?_⟩
  decide

/-- C9: a Stop whose sequence is 0 is ordered as if its sequence were
absent, because the comparator's (sequence || Infinity) treats the falsy 0
like a missing sequence: its key is the same ⊤ as a missing sequence, it
sorts strictly after every stop with a positive sequence, rewriting
sequence 0 to absent commutes with the sort, and in the concrete scenario
the order is the sequence-1 stop, then the sequence-0 stop and the
no-sequence stop by their times. -/
theorem C9_zero_sequence_as_missing :
    (∀ s : Stop, s.sequence = some 0 → effSeq s = ⊤) ∧
    (∀ a b : Stop, a.sequence = some 0 → (∃ n : ℤ, 0 < n ∧ b.sequence = some n) →
      stopLe b a ∧ ¬stopLe a b) ∧
    (∀ l : List Stop, buildDayPlan (l.map zeroToNone) = (buildDayPlan l).map zeroToNone) ∧
    buildDayPlan [c9stop0, c9stop1, c9stopN] = [c9stop1, c9stop0, c9stopN] := by
  refine ⟨effSeq_some_zero, ?_, ?_, by decide⟩
  · intro a b ha hb
    obtain ⟨n, hn, hbn⟩ := hb
    have hea : effSeq a = ⊤ := effSeq_some_zero a ha
    have heb : effSeq b = (n : WithTop ℤ) := effSeq_some_pos b n hn hbn
    constructor
    · exact Or.inl (by rw [hea, heb]; exact WithTop.coe_lt_top n)
    · intro hle
      rcases hle with hlt | ⟨heq, _⟩
      · rw [hea, heb] at hlt
        exact absurd hlt (not_top_lt)
      · rw [hea, heb] at heq
        exact absurd heq.symm (WithTop.coe_ne_top)
  · intro l
    have h := List.map_insertionSort stopLe stopLe zeroToNone l
      (fun a _ b _ => stopLe_zeroToNone a b)
    rw [buildDayPlan, buildDayPlan]
    exact h.symm

theorem C9_zero_sequence_witness :
    effSeq c9stop0 = ⊤ ∧ stopLe c9stop1 c9stop0 ∧ ¬stopLe c9stop0 c9stop1 :=
  ⟨C9_zero_sequence_as_missing.1 c9stop0 rfl,
    (C9_zero_sequence_as_missing.2.1 c9stop0 c9stop1 rfl ⟨1, one_pos, rfl⟩).1,
    (C9_zero_sequence_as_missing.2.1 c9stop0 c9stop1 rfl ⟨1, one_pos, rfl⟩).2⟩

/-- C2 counterexample: a leg with transport "" and travelTime "" connecting
two adjacent stops is matched by the lookup, and it DOES appear in the
exported itinerary sequence, because exportDayPlan pushes a transport
entry for every found connecting line without checking its content. -/
theorem C2_counterexample :
    emptyLeg.transport = some "" ∧ emptyLeg.travelTime = some "" ∧
    findConnectingLeg [emptyLeg] pairStopA.position pairStopB.position = some emptyLeg ∧
    TimelineEntry.transport emptyLeg ∈ exportSequence [emptyLeg] [pairStopA, pairStopB] := by
  decide

/-- C2 amended: a leg with neither transport nor travelTime populated is
matched but suppressed from the on-screen timeline (every transport entry
of the timeline has truthy transport or travelTime); in the exported
itinerary sequence, however, every found connecting leg is included,
content-free or not. -/
theorem C2_empty_leg_suppression :
    (∀ (legs : List Leg) (dp : List Stop) (line : Leg),
      TimelineEntry.transport line ∈ timelineSequence legs dp →
      (truthyS line.transport || truthyS line.travelTime) = true) ∧
    (∀ (legs : List Leg) (s1 s2 : Stop) (rest : List Stop) (line : Leg),
      findConnectingLeg legs s1.position s2.position = some line →
      exportSequence legs (s1 :: s2 :: rest) =
        TimelineEntry.location s1 :: TimelineEntry.transport line ::
          exportSequence legs (s2 :: rest)) :=
  ⟨fun legs dp line h => timeline_transport_truthy legs dp line h,
    fun legs s1 s2 rest line hf => export_cons_cons_some legs s1 s2 rest line hf⟩

theorem C2_empty_leg_witness :
    exportSequence [emptyLeg] (pairStopA :: pairStopB :: []) =
      TimelineEntry.location pairStopA :: TimelineEntry.transport emptyLeg ::
        exportSequence [emptyLeg] (pairStopB :: []) ∧
    (truthyS walkLeg.transport || truthyS walkLeg.travelTime) = true :=
  ⟨C2_empty_leg_suppression.2 [emptyLeg] pairStopA pairStopB [] emptyLeg (by decide),
    C2_empty_leg_suppression.1 [walkLeg] [pairStopA, pairStopB] walkLeg (by decide)⟩

/-- C4 counterexample: a leg stored with exactly the NaN-lat position of
a stop as its start and the other stop's position as its end does not
match the query on that pair, because NaN === NaN is false; so it is not
true that a leg stored as (start=A, end=B) always matches the query
(A, B). -/
theorem C4_counterexample :
    nanLeg.startPoint = nanStop.position ∧ nanLeg.endPoint = pairStopB.position ∧
    legMatches nanLeg nanStop.position pairStopB.position = false ∧
    findConnectingLeg [nanLeg] nanStop.position pairStopB.position = none := by
  decide

/-- C4 amended: the connecting-leg lookup is symmetric in its two query
stops for every leg list and every pair of positions; and a leg stored as
(start=A, end=B) and one stored as (start=B, end=A) both match the query
(A, B) provided none of the queried coordinates is NaN (with a NaN
coordinate the exact-equality match always fails, cf. C10). -/
theorem C4_symmetry :
    (∀ (legs : List Leg) (p1 p2 : Point),
      findConnectingLeg legs p1 p2 = findConnectingLeg legs p2 p1) ∧
    (∀ (lineAB lineBA : Leg) (p1 p2 : Point),
      p1.lat ≠ JNum.nan → p1.lng ≠ JNum.nan → p2.lat ≠ JNum.nan → p2.lng ≠ JNum.nan →
      lineAB.startPoint = p1 → lineAB.endPoint = p2 →
      lineBA.startPoint = p2 → lineBA.endPoint = p1 →
      legMatches lineAB p1 p2 = true ∧ legMatches lineBA p1 p2 = true) := by
  constructor
  · intro legs p1 p2
    unfold findConnectingLeg
    congr 1
    funext line
    exact legMatches_symm line p1 p2
  · intro lineAB lineBA p1 p2 h1 h2 h3 h4 e1 e2 e3 e4
    constructor
    · unfold legMatches
      rw [e1, e2, jeq_refl p1.lat h1, jeq_refl p1.lng h2, jeq_refl p2.lat h3,
        jeq_refl p2.lng h4]
      simp
    · unfold legMatches
      rw [e3, e4, jeq_refl p1.lat h1, jeq_refl p1.lng h2, jeq_refl p2.lat h3,
        jeq_refl p2.lng h4]
      simp

theorem C4_symmetry_witness :
    legMatches walkLeg pairStopA.position pairStopB.position = true ∧
    legMatches walkLegRev pairStopA.position pairStopB.position = true :=
  C4_symmetry.2 walkLeg walkLegRev pairStopA.position pairStopB.position
    (by decide) (by decide) (by decide) (by decide) rfl rfl rfl rfl

/-- C5: the connecting-leg lookup returns the first leg in arrival order
whose unordered endpoint pair exactly equals the two queried positions
(the match predicate is exactly endpoint-pair equality in either
direction, with no tolerance); it returns none precisely when no leg
matches, and a no-match adjacent pair renders as an unconnected adjacency
in both the timeline and the export; zero and multiple matches are
ordinary results of the same total lookup, never an error. -/
theorem C5_first_match_policy :
    (∀ (line : Leg) (p1 p2 : Point),
      legMatches line p1 p2 =
        ((pointJeq line.startPoint p1 && pointJeq line.endPoint p2) ||
          (pointJeq line.startPoint p2 && pointJeq line.endPoint p1))) ∧
    (∀ (legs : List Leg) (p1 p2 : Point) (line : Leg),
      findConnectingLeg legs p1 p2 = some line →
      legMatches line p1 p2 = true ∧
        ∃ l1 l2, legs = l1 ++ line :: l2 ∧ ∀ y ∈ l1, legMatches y p1 p2 = false) ∧
    (∀ (legs : List Leg) (p1 p2 : Point),
      findConnectingLeg legs p1 p2 = none ↔
        ∀ line ∈ legs, legMatches line p1 p2 = false) ∧
    (∀ (legs : List Leg) (s1 s2 : Stop) (rest : List Stop),
      findConnectingLeg legs s1.position s2.position = none →
      timelineSequence legs (s1 :: s2 :: rest) =
        TimelineEntry.location s1 :: timelineSequence legs (s2 :: rest) ∧
      exportSequence legs (s1 :: s2 :: rest) =
        TimelineEntry.location s1 :: exportSequence legs (s2 :: rest)) := by
  refine ⟨?_, ?_, ?_, ?_⟩
  · intro line p1 p2
    simp [pointJeq, legMatches, Bool.and_assoc]
  · intro legs p1 p2 line h
    exact find?_first h
  · intro legs p1 p2
    rw [findConnectingLeg, List.find?_eq_none]
    constructor
    · intro h line hm
      have := h line hm
      simpa using this
    · intro h line hm
      rw [h line hm]
      simp
  · intro legs s1 s2 rest hf
    exact ⟨timeline_cons_cons_none legs s1 s2 rest hf,
      export_cons_cons_none legs s1 s2 rest hf⟩

theorem C5_first_match_witness :
    (legMatches walkLeg pairStopA.position pairStopB.position = true ∧
      ∃ l1 l2, [walkLeg] = l1 ++ walkLeg :: l2 ∧
        ∀ y ∈ l1, legMatches y pairStopA.position pairStopB.position = false) ∧
    (timelineSequence [] (pairStopA :: pairStopB :: []) =
        TimelineEntry.location pairStopA :: timelineSequence [] (pairStopB :: []) ∧
      exportSequence [] (pairStopA :: pairStopB :: []) =
        TimelineEntry.location pairStopA :: exportSequence [] (pairStopB :: [])) :=
  ⟨C5_first_match_policy.2.1 [walkLeg] pairStopA.position pairStopB.position walkLeg
      (by decide),
    C5_first_match_policy.2.2.2 [] pairStopA pairStopB [] (by decide)⟩

/-- C10: when either stop of an adjacent pair has a NaN coordinate, the
connecting-leg lookup finds nothing — exact equality against NaN is
always false — so the pair renders as an unconnected adjacency, with no
transport entry in the timeline or the export. -/
theorem C10_nan_never_matches :
    ∀ (legs : List Leg) (s1 s2 : Stop) (rest : List Stop),
      (s1.position.lat = JNum.nan ∨ s1.position.lng = JNum.nan ∨
        s2.position.lat = JNum.nan ∨ s2.position.lng = JNum.nan) →
      findConnectingLeg legs s1.position s2.position = none ∧
      timelineSequence legs (s1 :: s2 :: rest) =
        TimelineEntry.location s1 :: timelineSequence legs (s2 :: rest) ∧
      exportSequence legs (s1 :: s2 :: rest) =
        TimelineEntry.location s1 :: exportSequence legs (s2 :: rest) := by
  intro legs s1 s2 rest h
  have hnone : findConnectingLeg legs s1.position s2.position = none := by
    rw [findConnectingLeg, List.find?_eq_none]
    intro line _
    rw [legMatches_of_nan line s1.position s2.position h]
    simp
  exact ⟨hnone, timeline_cons_cons_none legs s1 s2 rest hnone,
    export_cons_cons_none legs s1 s2 rest hnone⟩

theorem C10_nan_witness :
    findConnectingLeg [nanLeg] nanStop.position pairStopB.position = none ∧
    timelineSequence [nanLeg] (nanStop :: pairStopB :: []) =
      TimelineEntry.location nanStop :: timelineSequence [nanLeg] (pairStopB :: []) ∧
    exportSequence [nanLeg] (nanStop :: pairStopB :: []) =
      TimelineEntry.location nanStop :: exportSequence [nanLeg] (pairStopB :: []) :=
  C10_nan_never_matches [nanLeg] nanStop pairStopB [] (Or.inl rfl)

/-- C3 counterexample: with one non-numeric-lat location record alongside
N = 2 well-formed records, the resulting Stop set has size 3 rather than
N = 2, no warning (rather than exactly one) is surfaced, and the NaN
point is passed to the map-bounds computation rather than excluded. -/
theorem C3_counterexample :
    ¬((processPrompt cexBatch).popUps.length = 2 ∧
      (processPrompt cexBatch).warnings.length = 1 ∧
      Point.mk JNum.nan (JNum.num 1) ∉ (processPrompt cexBatch).boundsPoints) := by
  decide

/-- C3 amended: processing a batch containing one location record with a
non-numeric lat alongside well-formed records never throws (the
processing function is total by construction), parses the bad lat to NaN,
and keeps the malformed record: the Stop set has size N + 1, the NaN
point is included in the map-bounds computation, and no warning is
surfaced. -/
theorem C3_malformed_record :
    ∀ (pre post : List LocArgs) (bad : LocArgs), bad.lat = RawVal.malformed →
      (processPrompt
          (pre.map Call.location ++ Call.location bad :: post.map Call.location)).popUps.length
          = pre.length + post.length + 1 ∧
      Point.mk JNum.nan (parseNum bad.lng) ∈
        (processPrompt
          (pre.map Call.location ++ Call.location bad :: post.map Call.location)).boundsPoints ∧
      (processPrompt
          (pre.map Call.location ++ Call.location bad :: post.map Call.location)).warnings
          = [] := by
  intro pre post bad hbad
  have hpop : ∀ calls : List Call,
      (processPrompt calls).popUps = (runCalls calls emptyState).popUps := fun _ => rfl
  have hbnd : ∀ calls : List Call,
      (processPrompt calls).boundsPoints = (runCalls calls emptyState).boundsPoints :=
    fun _ => rfl
  have hwrn : ∀ calls : List Call,
      (processPrompt calls).warnings = (runCalls calls emptyState).warnings := fun _ => rfl
  have hsplit : pre.map Call.location ++ Call.location bad :: post.map Call.location =
      (pre ++ bad :: post).map Call.location := by
    rw [List.map_append, List.map_cons]
  refine ⟨?_, ?_, ?_⟩
  · rw [hpop, hsplit, popUps_length_runCalls_locs]
    simp [emptyState]
    omega
  · rw [hbnd, runCalls_append, runCalls_cons]
    apply mem_boundsPoints_runCalls
    show Point.mk JNum.nan (parseNum bad.lng) ∈
      (setPin bad (runCalls (pre.map Call.location) emptyState)).boundsPoints
    have : (setPin bad (runCalls (pre.map Call.location) emptyState)).boundsPoints =
        (runCalls (pre.map Call.location) emptyState).boundsPoints ++
          [Point.mk (parseNum bad.lat) (parseNum bad.lng)] := rfl
    rw [this, hbad]
    simp [parseNum]
  · rw [hwrn, warnings_runCalls]
    rfl

theorem C3_malformed_witness :
    (processPrompt cexBatch).popUps.length = 3 ∧
    Point.mk JNum.nan (JNum.num 1) ∈ (processPrompt cexBatch).boundsPoints ∧
    (processPrompt cexBatch).warnings = [] :=
  C3_malformed_record [] [goodLoc1, goodLoc2] badLoc rfl

theorem mem_locationsOf (s : Stop) :
    ∀ l : List TimelineEntry, TimelineEntry.location s ∈ l → s ∈ locationsOf l := by
  intro l
  induction l with
  | nil => intro h; cases h
  | cons e t ih =>
    intro h
    rcases List.mem_cons.mp h with heq | hmem
    · cases heq
      rw [locationsOf]
      exact List.mem_cons_self _ _
    · cases e with
      | location s2 =>
        rw [locationsOf]
        exact List.mem_cons_of_mem _ (ih hmem)
      | transport lg =>
        rw [locationsOf]
        exact ih hmem

/-- C6: every Stop in the sorted day plan has a truthy (present and
non-empty) time; a location record arriving without a truthy time is
recorded in popUps for map display but leaves dayPlanItinerary unchanged;
and consequently every location entry of the export assembled from a
processed batch has a truthy time. -/
theorem C6_time_gating :
    (∀ (calls : List Call) (s : Stop),
      s ∈ (processPrompt calls).dayPlanItinerary → truthyS s.time = true) ∧
    (∀ (args : LocArgs) (st : AppState), truthyS args.time = false →
      (setPin args st).popUps = st.popUps ++ [mkStop args] ∧
      (setPin args st).dayPlanItinerary = st.dayPlanItinerary) ∧
    (∀ (calls : List Call) (legs : List Leg) (s : Stop),
      TimelineEntry.location s ∈
          exportSequence legs (processPrompt calls).dayPlanItinerary →
      truthyS s.time = true) := by
  have h1 : ∀ (calls : List Call) (s : Stop),
      s ∈ (processPrompt calls).dayPlanItinerary → truthyS s.time = true := by
    intro calls s hs
    have heq : (processPrompt calls).dayPlanItinerary =
        buildDayPlan (runCalls calls emptyState).dayPlanItinerary := rfl
    rw [heq, buildDayPlan] at hs
    have hmem : s ∈ (runCalls calls emptyState).dayPlanItinerary :=
      (List.mem_insertionSort stopLe).mp hs
    exact dayPlan_truthy_runCalls calls emptyState (by intro s0 hs0; cases hs0) s hmem
  refine ⟨h1, ?_, ?_⟩
  · intro args st ht
    refine ⟨rfl, ?_⟩
    simp [setPin, ht]
  · intro calls legs s hs
    have hmem := mem_locationsOf s _ hs
    rw [export_locations] at hmem
    exact h1 calls s hmem

theorem C6_time_gating_witness :
    truthyS (mkStop goodLoc1).time = true ∧
    (setPin noTimeLoc emptyState).popUps = emptyState.popUps ++ [mkStop noTimeLoc] ∧
    (setPin noTimeLoc emptyState).dayPlanItinerary = emptyState.dayPlanItinerary :=
  ⟨C6_time_gating.1 [Call.location goodLoc1] (mkStop goodLoc1) (by decide),
    C6_time_gating.2.1 noTimeLoc emptyState (by decide)⟩

/-- C7: for every day plan of N stops and every leg list, the exported
itinerary contains exactly the N stops as location entries, in day-plan
order, with at most N - 1 transport entries interleaved, and it ends with
the final stop. -/
theorem C7_assembler_completeness :
    ∀ (dp : List Stop) (legs : List Leg),
      locationsOf (exportSequence legs dp) = dp ∧
      (exportSequence legs dp).countP isTransport ≤ dp.length - 1 ∧
      (∀ s : Stop, dp.getLast? = some s →
        (exportSequence legs dp).getLast? = some (TimelineEntry.location s)) :=
  fun dp legs =>
    ⟨export_locations legs dp, export_transport_count legs dp,
      fun s h => export_getLast legs dp s h⟩

theorem C7_assembler_witness :
    (exportSequence [walkLeg] [pairStopA, pairStopB]).getLast? =
      some (TimelineEntry.location pairStopB) :=
  (C7_assembler_completeness [pairStopA, pairStopB] [walkLeg]).2.2 pairStopB (by decide)

/-- C8 counterexample: with the margin treated as an input (the claim
quantifies over it), margin 1000 and pageHeight 2000 give a degenerate
page (2000 - 2*1000 ≤ 0), yet a single entry measuring 0, walked from the
source's initial cursor 65, is placed with no page-break instruction at
all — 65 + 40 does not exceed pageHeight - margin = 1000. -/
theorem C8_counterexample :
    (2000 : ℚ) - 2 * 1000 ≤ 0 ∧
    layoutWalk measureZero 2000 1000 [layoutEntry] 65 =
      [Instr.place layoutEntry 65] := by
  constructor
  · norm_num
  · have hc : ¬((65 : ℚ) + blockHeight measureZero layoutEntry > 2000 - 1000) := by
      rw [blockHeight]
      norm_num [measureZero]
    rw [layoutWalk]
    simp [decide_eq_false hc, layoutWalk]

/-- C8 amended: with the margin fixed at 20 as in the source, for every
degenerate page (pageHeight - 2*20 ≤ 0), every entry list and every
nonnegative text measurement, the walk emits exactly the forced-break
layout: a page break before every entry (entries.length breaks in total)
and every entry placed, never dropped; the walk is structurally recursive
on the entry list, hence terminates. -/
theorem C8_degenerate_page :
    ∀ (measure : TimelineEntry → ℚ) (pageHeight : ℚ) (entries : List TimelineEntry),
      (∀ e, 0 ≤ measure e) → pageHeight - 2 * 20 ≤ 0 →
      drawItinerary measure pageHeight entries = forcedBreakLayout measure entries ∧
      placedEntries (drawItinerary measure pageHeight entries) = entries ∧
      (drawItinerary measure pageHeight entries).countP isPageBreak = entries.length := by
  intro measure pageHeight entries hm hp
  have heq : drawItinerary measure pageHeight entries = forcedBreakLayout measure entries := by
    rw [drawItinerary]
    exact layoutWalk_degenerate measure pageHeight hm hp entries 65 (by norm_num)
  exact ⟨heq, by rw [heq, forced_places], by rw [heq, forced_breaks]⟩

theorem C8_degenerate_witness :
    drawItinerary measureZero 40 [layoutEntry] = forcedBreakLayout measureZero [layoutEntry] ∧
    placedEntries (drawItinerary measureZero 40 [layoutEntry]) = [layoutEntry] ∧
    (drawItinerary measureZero 40 [layoutEntry]).countP isPageBreak = [layoutEntry].length :=
  C8_degenerate_page measureZero 40 [layoutEntry] (fun _ => le_refl 0) (by norm_num)

end DoggyDay
